import Mathlib

/-!
Verification of the particle generation and per-frame animation engine of the
TraidarLogo repository.

The definitions below are shallow embeddings of:
  * the three-phase morph blend schedule of `AdvancedLogoParticles`
    (src/components/AdvancedLogoParticles.tsx, lines 390-407);
  * the particle field builder `particleData` (same file, lines 410-894),
    modelled over the rationals, with the ambient random source abstracted as
    an input stream `rng : Nat -> Rat` consumed one value per `Math.random()`
    call, and the transcendental float helpers (`Math.sin`, `Math.cos`,
    `Math.acos`, `Math.PI`) abstracted as an interface `TrigQ` (their exact
    real-number behaviour is modelled separately by `sphereTarget` below);
  * the per-frame update of the same component (`useFrame`, lines 938-1079),
    modelled over the reals;
  * the ambient rising-particle field of `RisingParticles`
    (src/Models/RisingParticles.tsx), modelled over the reals.
-/

namespace TraidarLogo

/-! ## Morph blend schedule (AdvancedLogoParticles.tsx, lines 390-407) -/

/-- Convert the scalar sequence progress into the three blend amounts
`(sphereAmount, bullAmount, logoAmount)`, exactly as lines 392-407 of
`AdvancedLogoParticles.tsx` do: below `0.4` a linear sphere-to-bull
transition, on `[0.4, 0.6]` pure bull, above `0.6` a linear bull-to-logo
transition. -/
def morphAmounts (sequenceProgress : ℚ) : ℚ × ℚ × ℚ :=
  if sequenceProgress < 0.4 then
    (1 - sequenceProgress / 0.4, sequenceProgress / 0.4, 0)
  else if sequenceProgress ≤ 0.6 then
    (0, 1, 0)
  else
    (0, 1 - (sequenceProgress - 0.6) / 0.4, (sequenceProgress - 0.6) / 0.4)

/-! ## Particle field builder (AdvancedLogoParticles.tsx, lines 410-894)

The builder is modelled over the rationals.  Each call of `Math.random()` in
the source reads the next value of an abstract stream `rng : Nat -> Rat`; the
counter is threaded left to right through the source's evaluation order.  The
Fisher-Yates shuffle of the visible pixel list (lines 482-488) is abstracted
as a function argument `shuffle`, and the float functions `Math.sin`,
`Math.cos`, `Math.acos` and the constant `Math.PI` as an interface `TrigQ`. -/

/-- An RGBA value of one canvas pixel, as read from `imageData.data`. -/
structure RGBA where
  r : ℕ
  g : ℕ
  b : ℕ
  a : ℕ
deriving DecidableEq

/-- A visible pixel collected by the first pass (lines 467-479): raster
coordinates plus the RGBA color. -/
structure Px where
  x : ℕ
  y : ℕ
  r : ℕ
  g : ℕ
  b : ℕ
  a : ℕ
deriving DecidableEq

/-- Configuration surface of the builder: the component props that the
sampling code reads. -/
structure BuildCfg where
  particleCount : ℕ
  spread : ℚ
  alphaThreshold : ℕ
  densityAdaptive : Bool
  forceFallbackColor : Bool
  fallbackColor : ℚ × ℚ × ℚ
deriving DecidableEq

/-- Abstract interface for the transcendental float helpers used when
generating sphere target positions (`Math.sin`, `Math.cos`, `Math.acos`,
`Math.PI`).  Their exact real-number behaviour is modelled by `sphereTarget`
below; the builder statements do not depend on it. -/
structure TrigQ where
  sin : ℚ → ℚ
  cos : ℚ → ℚ
  acos : ℚ → ℚ
  pi : ℚ

/-- The preloaded bull image data (lines 203-282): its visible pixel
coordinates (already shuffled) and the canvas dimensions. -/
structure BullData where
  pixels : List (ℕ × ℕ)
  width : ℕ
  height : ℕ

/-- One particle record: the logo base position (stored identically into
`positions` and `originalPositions`), the color, and the sphere, cube and
bull target positions. -/
structure PRec where
  pos : ℚ × ℚ × ℚ
  color : ℚ × ℚ × ℚ
  sphere : ℚ × ℚ × ℚ
  cube : ℚ × ℚ × ℚ
  bull : ℚ × ℚ × ℚ
deriving DecidableEq

/-- First pass (lines 467-479): collect every pixel whose alpha exceeds the
threshold, with raster coordinates `(i % width, i / width)`. -/
def collectVisiblePixels (width alphaThreshold : ℕ) (data : List RGBA) : List Px :=
  (List.range data.length).filterMap fun i =>
    match data[i]? with
    | some p =>
        if p.a > alphaThreshold then
          some ⟨i % width, i / width, p.r, p.g, p.b, p.a⟩
        else none
    | none => none

/-- Sphere target position of one particle (lines 600-608):
`phi = acos(1 - 2*rand)`, `theta = rand * PI * 2`, radius `spread * 0.8`. -/
def mkSphereQ (trig : TrigQ) (spread r1 r2 : ℚ) : ℚ × ℚ × ℚ :=
  let sphereRadius := spread * 0.8
  let phi := trig.acos (1 - 2 * r1)
  let theta := r2 * trig.pi * 2
  (sphereRadius * trig.sin phi * trig.cos theta,
   sphereRadius * trig.sin phi * trig.sin theta,
   sphereRadius * trig.cos phi)

/-- Cube target position of one particle (lines 610-616): uniform in a cube
of side `spread * 0.6`. -/
def mkCubeQ (spread r1 r2 r3 : ℚ) : ℚ × ℚ × ℚ :=
  let cubeSize := spread * 0.6
  ((r1 - 0.5) * cubeSize, (r2 - 0.5) * cubeSize, (r3 - 0.5) * cubeSize)

/-- Bull target position of one particle (lines 618-627): round-robin reuse
of the bull pixels, `index % bullPixelCount`, mapped to local space. -/
def mkBullQ (spread : ℚ) (bull : BullData) (idx : ℕ) (rz : ℚ) : ℚ × ℚ × ℚ :=
  let bp := bull.pixels.getD (idx % bull.pixels.length) (0, 0)
  (((bp.1 : ℚ) / bull.width - 0.5) * spread,
   (-(((bp.2 : ℚ) / bull.height - 0.5))) * spread,
   (rz - 0.5) * 0.02)

/-- Color assignment (lines 629-638): the image color divided by 255 unless
the fallback color is forced. -/
def pixelColor (cfg : BuildCfg) (r g b : ℕ) : ℚ × ℚ × ℚ :=
  if cfg.forceFallbackColor then cfg.fallbackColor
  else ((r : ℚ) / 255, (g : ℚ) / 255, (b : ℚ) / 255)

/-- One particle of the evenly-strided adaptive branch (lines 576-641) or of
the uniform branch (lines 733-805), both of which map the pixel without
jitter and then draw, in order, the depth, sphere, cube and bull randoms
(7 `Math.random()` calls). -/
def mkStrideParticle (cfg : BuildCfg) (trig : TrigQ) (bull : BullData)
    (width height : ℕ) (pixel : Px) (pIdx : ℕ) (rng : ℕ → ℚ) (n : ℕ) : PRec :=
  let x := (pixel.x : ℚ) / width
  let y := (pixel.y : ℚ) / height
  let posX := (x - 0.5) * cfg.spread
  let posY := (-(y - 0.5)) * cfg.spread
  let posZ := (rng n - 0.5) * 0.02
  { pos := (posX, posY, posZ)
    color := pixelColor cfg pixel.r pixel.g pixel.b
    sphere := mkSphereQ trig cfg.spread (rng (n + 1)) (rng (n + 2))
    cube := mkCubeQ cfg.spread (rng (n + 3)) (rng (n + 4)) (rng (n + 5))
    bull := mkBullQ cfg.spread bull pIdx (rng (n + 6)) }

/-- One particle of the several-particles-per-pixel adaptive branch
(lines 643-724): sub-pixel jitter of amplitude `0.001` applied to the
normalized coordinates, then depth, sphere, cube and bull randoms
(9 `Math.random()` calls in total). -/
def mkJitterParticle (cfg : BuildCfg) (trig : TrigQ) (bull : BullData)
    (width height : ℕ) (pixel : Px) (pIdx : ℕ) (rng : ℕ → ℚ) (n : ℕ) : PRec :=
  let x := (pixel.x : ℚ) / width
  let y := (pixel.y : ℚ) / height
  let jitterX := (rng n - 0.5) * 0.001
  let jitterY := (rng (n + 1) - 0.5) * 0.001
  let posX := (x + jitterX - 0.5) * cfg.spread
  let posY := (-(y + jitterY - 0.5)) * cfg.spread
  let posZ := (rng (n + 2) - 0.5) * 0.02
  { pos := (posX, posY, posZ)
    color := pixelColor cfg pixel.r pixel.g pixel.b
    sphere := mkSphereQ trig cfg.spread (rng (n + 3)) (rng (n + 4))
    cube := mkCubeQ cfg.spread (rng (n + 5)) (rng (n + 6)) (rng (n + 7))
    bull := mkBullQ cfg.spread bull pIdx (rng (n + 8)) }

/-- One particle of the fallback round-robin pass (lines 809-874): jitter of
amplitude `0.002` applied to the raw pixel coordinates before normalization,
then depth, sphere, cube and bull randoms (9 `Math.random()` calls). -/
def mkFallbackParticle (cfg : BuildCfg) (trig : TrigQ) (bull : BullData)
    (width height : ℕ) (visible : List Px) (pIdx : ℕ) (rng : ℕ → ℚ) (n : ℕ) : PRec :=
  let pixel := visible.getD (pIdx % visible.length) ⟨0, 0, 0, 0, 0, 0⟩
  let jitterX := (rng n - 0.5) * 0.002
  let jitterY := (rng (n + 1) - 0.5) * 0.002
  let normalizedX := ((pixel.x : ℚ) + jitterX) / width
  let normalizedY := ((pixel.y : ℚ) + jitterY) / height
  let posX := (normalizedX - 0.5) * cfg.spread
  let posY := (-(normalizedY - 0.5)) * cfg.spread
  let posZ := (rng (n + 2) - 0.5) * 0.02
  { pos := (posX, posY, posZ)
    color := pixelColor cfg pixel.r pixel.g pixel.b
    sphere := mkSphereQ trig cfg.spread (rng (n + 3)) (rng (n + 4))
    cube := mkCubeQ cfg.spread (rng (n + 5)) (rng (n + 6)) (rng (n + 7))
    bull := mkBullQ cfg.spread bull pIdx (rng (n + 8)) }

/-- Evenly-strided adaptive branch (lines 573-641), taken when
`samplesPerPixel < 1`: for `i = 0 .. particleCount-1` take the pixel at
index `floor(i * step)` with `step = totalPixels / particleCount`.  The state
is the list built so far (its length is the source's `particleIndex`) and the
random-stream counter. -/
def strideLoop (cfg : BuildCfg) (trig : TrigQ) (bull : BullData)
    (width height : ℕ) (visible : List Px) (rng : ℕ → ℚ) : List PRec × ℕ :=
  let totalPixels := visible.length
  let step : ℚ := (totalPixels : ℚ) / cfg.particleCount
  (List.range cfg.particleCount).foldl
    (fun st (i : ℕ) =>
      let pixelIndex := (⌊(i : ℚ) * step⌋).toNat
      match visible[pixelIndex]? with
      | none => st
      | some pixel =>
          (st.1 ++ [mkStrideParticle cfg trig bull width height pixel st.1.length rng st.2],
           st.2 + 7))
    ([], 0)

/-- Several-particles-per-pixel adaptive branch (lines 643-724), taken when
`samplesPerPixel >= 1`: place `ceil(particleCount / totalPixels)` jittered
particles per visible pixel, stopping once `particleCount` is reached. -/
def perPixelLoop (cfg : BuildCfg) (trig : TrigQ) (bull : BullData)
    (width height : ℕ) (visible : List Px) (rng : ℕ → ℚ) : List PRec × ℕ :=
  let totalPixels := visible.length
  let particlesPerPixel := ⌈(cfg.particleCount : ℚ) / totalPixels⌉.toNat
  visible.foldl
    (fun st pixel =>
      (List.range particlesPerPixel).foldl
        (fun st2 _ =>
          if st2.1.length < cfg.particleCount then
            (st2.1 ++ [mkJitterParticle cfg trig bull width height pixel st2.1.length rng st2.2],
             st2.2 + 9)
          else st2)
        st)
    ([], 0)

/-- Uniform sampling branch (lines 726-806): fixed-stride scan of the raw
pixel buffer at `samplingRate = max(1, floor(totalPixels / particleCount))`,
accepting pixels above the alpha threshold. -/
def uniformLoop (cfg : BuildCfg) (trig : TrigQ) (bull : BullData)
    (width height : ℕ) (data : List RGBA) (rng : ℕ → ℚ) : List PRec × ℕ :=
  let numPixels := data.length
  let samplingRate := max 1 (numPixels / cfg.particleCount)
  ((List.range numPixels).filter (fun i => i % samplingRate = 0)).foldl
    (fun st i =>
      if st.1.length < cfg.particleCount then
        match data[i]? with
        | some p =>
            if p.a > cfg.alphaThreshold then
              (st.1 ++ [mkStrideParticle cfg trig bull width height
                          ⟨i % width, i / width, p.r, p.g, p.b, p.a⟩ st.1.length rng st.2],
               st.2 + 7)
            else st
        | none => st
      else st)
    ([], 0)

/-- The main sampling pass (lines 567-806): the adaptive branches when
`densityMode` is adaptive and there are visible pixels, the uniform branch
otherwise.  `samplesPerPixel = particleCount / totalPixels` selects between
the two adaptive branches. -/
def mainPass (cfg : BuildCfg) (trig : TrigQ) (bull : BullData)
    (width height : ℕ) (data : List RGBA) (visible : List Px)
    (rng : ℕ → ℚ) : List PRec × ℕ :=
  if cfg.densityAdaptive = true ∧ 0 < visible.length then
    if (cfg.particleCount : ℚ) / visible.length < 1 then
      strideLoop cfg trig bull width height visible rng
    else
      perPixelLoop cfg trig bull width height visible rng
  else
    uniformLoop cfg trig bull width height data rng

/-- Fallback round-robin pass (lines 808-874): while fewer than
`particleCount` particles exist and there are visible pixels, append a
jittered copy of pixel `particleIndex % visiblePixels.length`.  The fuel
argument bounds the iteration count; each iteration appends one particle, so
fuel `particleCount` always suffices. -/
def fallbackLoop (cfg : BuildCfg) (trig : TrigQ) (bull : BullData)
    (width height : ℕ) (visible : List Px) (rng : ℕ → ℚ) :
    ℕ → List PRec × ℕ → List PRec × ℕ
  | 0, st => st
  | fuel + 1, st =>
      if st.1.length < cfg.particleCount ∧ 0 < visible.length then
        fallbackLoop cfg trig bull width height visible rng fuel
          (st.1 ++ [mkFallbackParticle cfg trig bull width height visible st.1.length rng st.2],
           st.2 + 9)
      else st

/-- All particle records produced by one run of the builder for a given
(already shuffled) visible pixel list: the main sampling pass followed by the
fallback pass. -/
def builtParticles (cfg : BuildCfg) (trig : TrigQ) (bull : BullData)
    (width height : ℕ) (data : List RGBA) (visible : List Px)
    (rng : ℕ → ℚ) : List PRec :=
  (fallbackLoop cfg trig bull width height visible rng cfg.particleCount
    (mainPass cfg trig bull width height data visible rng)).1

/-- The builder's output arrays, one triple per particle slot. -/
structure BuildOutput where
  positions : List (ℚ × ℚ × ℚ)
  colors : List (ℚ × ℚ × ℚ)
  originalPositions : List (ℚ × ℚ × ℚ)
  spherePositions : List (ℚ × ℚ × ℚ)
  cubePositions : List (ℚ × ℚ × ℚ)
  bullPositions : List (ℚ × ℚ × ℚ)
deriving DecidableEq

/-- Model of a preallocated `Float32Array(particleCount * 3)` viewed as a
list of triples: the filled prefix followed by zero triples. -/
def padTo (count : ℕ) (l : List (ℚ × ℚ × ℚ)) : List (ℚ × ℚ × ℚ) :=
  l.take count ++ List.replicate (count - l.length) (0, 0, 0)

/-- The builder run against an already collected and shuffled visible pixel
list: the `Float32Array`s are preallocated with `particleCount * 3` entries
(lines 447-452) and the computed particles fill the leading slots. -/
def buildFromVisible (cfg : BuildCfg) (trig : TrigQ) (bull : BullData)
    (width height : ℕ) (data : List RGBA) (visible : List Px)
    (rng : ℕ → ℚ) : BuildOutput :=
  let ps := builtParticles cfg trig bull width height data visible rng
  { positions := padTo cfg.particleCount (ps.map (·.pos))
    colors := padTo cfg.particleCount (ps.map (·.color))
    originalPositions := padTo cfg.particleCount (ps.map (·.pos))
    spherePositions := padTo cfg.particleCount (ps.map (·.sphere))
    cubePositions := padTo cfg.particleCount (ps.map (·.cube))
    bullPositions := padTo cfg.particleCount (ps.map (·.bull)) }

/-- The whole `particleData` memo (lines 410-894): collect the visible
pixels of the decoded image, shuffle them (abstracted as `shuffle`), and run
the builder. -/
def particleData (cfg : BuildCfg) (trig : TrigQ) (bull : BullData)
    (width height : ℕ) (data : List RGBA) (shuffle : List Px → List Px)
    (rng : ℕ → ℚ) : BuildOutput :=
  buildFromVisible cfg trig bull width height data
    (shuffle (collectVisiblePixels width cfg.alphaThreshold data)) rng

/-- Flatten a list of triples into the flat component list, as stored in a
`Float32Array` of length `3 * count`. -/
def flat3 (l : List (ℚ × ℚ × ℚ)) : List ℚ :=
  l.foldr (fun t acc => t.1 :: t.2.1 :: t.2.2 :: acc) []

/-! ### Concrete instances used to evaluate the builder -/

/-- A trivial transcendental interface, usable because no builder statement
below depends on the sphere or cube coordinate values. -/
def trigZero : TrigQ := ⟨fun _ => 0, fun _ => 0, fun _ => 0, 0⟩

/-- A one-pixel bull image. -/
def bullOne : BullData := ⟨[(0, 0)], 1, 1⟩

/-- A constant random stream with value `3/4`. -/
def rngThreeQuarters : ℕ → ℚ := fun _ => 3/4

/-- A constant random stream with value `1/2`. -/
def rngHalf : ℕ → ℚ := fun _ => 1/2

/-- Uniform-mode configuration for the 2x2 end-to-end check: four particles,
spread `4`, alpha threshold `0`, image colors. -/
def cfgUniform4 : BuildCfg :=
  ⟨4, 4, 0, false, false, (0, 0, 0)⟩

/-- A fully opaque 2x2 image with four distinct RGBA corner pixels. -/
def image2x2 : List RGBA :=
  [⟨255, 0, 0, 255⟩, ⟨0, 255, 0, 255⟩, ⟨0, 0, 255, 255⟩, ⟨255, 255, 0, 255⟩]

/-- Adaptive-mode configuration asking for a single particle with spread
`1`. -/
def cfgAdaptive1 : BuildCfg :=
  ⟨1, 1, 0, true, false, (0, 0, 0)⟩

/-- A single visible pixel at raster position `(1,1)` of a 2x2 canvas. -/
def visibleOne : List Px := [⟨1, 1, 9, 9, 9, 255⟩]

/-- Two visible pixels of a 2x2 canvas. -/
def visibleTwo : List Px := [⟨0, 0, 10, 20, 30, 255⟩, ⟨1, 1, 40, 50, 60, 255⟩]

/-- Uniform-mode configuration asking for two particles from an empty image,
to exercise the fallback pass. -/
def cfgFallback2 : BuildCfg :=
  ⟨2, 1, 0, false, false, (0, 0, 0)⟩

/-! ## Per-frame update (AdvancedLogoParticles.tsx, lines 938-1079)

The per-frame update is modelled over the reals, one function per particle
slot plus the array-level loop.  The pointer world position (the ray-plane
intersection computed by the renderer) is an explicit input. -/

/-- The per-frame parameters read by the update loop: the morphing flag, the
three blend amounts, the force and wave controls, the pointer world position
on the `z = 0` plane, and the elapsed time. -/
structure FrameParams where
  enableMorphing : Bool
  sphereAmount : ℝ
  bullAmount : ℝ
  logoAmount : ℝ
  explosionForce : ℝ
  animationSpeed : ℝ
  waveAmplitude : ℝ
  mouseInteraction : ℝ
  mouseRadius : ℝ
  mouseX : ℝ
  mouseY : ℝ
  time : ℝ

/-- Pointer repulsion force (lines 1033-1058): inside the interaction radius
and away from the exact pointer position, push along the normalized delta
with quadratic falloff; otherwise no force.  The outer guard skips the whole
computation when the interaction strength is not positive. -/
noncomputable def mouseForce (mouseInteraction mouseRadius mouseX mouseY px py : ℝ) :
    ℝ × ℝ :=
  if 0 < mouseInteraction then
    let deltaX := px - mouseX
    let deltaY := py - mouseY
    let distance := Real.sqrt (deltaX * deltaX + deltaY * deltaY)
    if distance < mouseRadius ∧ 0 < distance then
      let normalizedX := deltaX / distance
      let normalizedY := deltaY / distance
      let falloff := 1 - distance / mouseRadius
      let force := mouseInteraction * falloff * falloff
      (normalizedX * force, normalizedY * force)
    else (0, 0)
  else (0, 0)

/-- Final position of particle slot `k` for one frame (lines 975-1064):
weighted morph target, optional radial explosion push, wave offset, and the
pointer force added to the X/Y components. -/
noncomputable def computeParticle (P : FrameParams) (k : ℕ)
    (orig sphere bull : ℝ × ℝ × ℝ) : ℝ × ℝ × ℝ :=
  let target :=
    if P.enableMorphing then
      (P.sphereAmount * sphere.1 + P.bullAmount * bull.1 + P.logoAmount * orig.1,
       P.sphereAmount * sphere.2.1 + P.bullAmount * bull.2.1 + P.logoAmount * orig.2.1,
       P.sphereAmount * sphere.2.2 + P.bullAmount * bull.2.2 + P.logoAmount * orig.2.2)
    else orig
  let target2 :=
    if 0 < P.explosionForce then
      let distance :=
        Real.sqrt (target.1 * target.1 + target.2.1 * target.2.1 + target.2.2 * target.2.2)
      let normalizedX := if 0 < distance then target.1 / distance else 0
      let normalizedY := if 0 < distance then target.2.1 / distance else 0
      let normalizedZ := if 0 < distance then target.2.2 / distance else 0
      (target.1 + normalizedX * P.explosionForce,
       target.2.1 + normalizedY * P.explosionForce,
       target.2.2 + normalizedZ * P.explosionForce)
    else target
  let waveX := Real.sin (P.time * P.animationSpeed + (k : ℝ) * 0.1) * P.waveAmplitude
  let waveY := Real.cos (P.time * P.animationSpeed + (k : ℝ) * 0.1) * P.waveAmplitude
  let waveZ := Real.sin (P.time * P.animationSpeed * 0.5 + (k : ℝ) * 0.2) * P.waveAmplitude * 0.5
  let mf := mouseForce P.mouseInteraction P.mouseRadius P.mouseX P.mouseY
    (target2.1 + waveX) (target2.2.1 + waveY)
  (target2.1 + waveX + mf.1, target2.2.1 + waveY + mf.2, target2.2.2 + waveZ)

/-- The array-level frame update (lines 938-1079): the loop writes every
triple of the position buffer whose index is inside the base-position array
(the `i + 2 >= originalPositions.length` guard breaks out otherwise, leaving
the previous contents in place), and the early return keeps an empty buffer
untouched.  The bull base position falls back to the logo base position when
the bull array is too short (lines 985-987). -/
noncomputable def frameUpdate (P : FrameParams)
    (orig sphere bull prev : List (ℝ × ℝ × ℝ)) : List (ℝ × ℝ × ℝ) :=
  if prev.length = 0 then prev
  else
    (List.range prev.length).map fun k =>
      if k < orig.length then
        let o := orig.getD k (0, 0, 0)
        let s := sphere.getD k (0, 0, 0)
        let b := if k < bull.length then bull.getD k (0, 0, 0) else o
        computeParticle P k o s b
      else prev.getD k (0, 0, 0)

/-! ## Sphere target sampling (AdvancedLogoParticles.tsx, lines 600-608)

The exact real-number content of the sphere position generator, with the two
uniform draws `u`, `v` as explicit inputs. -/

/-- Sphere target position: `phi = acos(1 - 2u)`, `theta = v * PI * 2`,
radius `spread * 0.8`. -/
noncomputable def sphereTarget (spread u v : ℝ) : ℝ × ℝ × ℝ :=
  let sphereRadius := spread * 0.8
  let phi := Real.arccos (1 - 2 * u)
  let theta := v * Real.pi * 2
  (sphereRadius * Real.sin phi * Real.cos theta,
   sphereRadius * Real.sin phi * Real.sin theta,
   sphereRadius * Real.cos phi)

/-- Euclidean norm of a triple. -/
noncomputable def norm3 (p : ℝ × ℝ × ℝ) : ℝ :=
  Real.sqrt (p.1 * p.1 + p.2.1 * p.2.1 + p.2.2 * p.2.2)

/-! ## Ambient rising-particle field (src/Models/RisingParticles.tsx)

Construction (lines 49-73) and the per-frame step of one particle
(lines 201-229), over the reals, with the `Math.random()` draws of each
operation as explicit inputs `r1, r2, ...` in source order. -/

/-- Configuration of the ambient field. -/
structure AmbientParams where
  area : ℝ
  height : ℝ
  speed : ℝ
  bottomDensity : ℝ
  velocityGradient : ℝ
  sizeGradient : ℝ
  driftIntensity : ℝ

/-- State of one ambient particle at field construction (lines 49-73):
position, vertical velocity, lifetime phase and scale, drawn from six
`Math.random()` values in source order. -/
noncomputable def initAmbient (P : AmbientParams) (r1 r2 r3 r4 r5 r6 : ℝ) :
    (ℝ × ℝ × ℝ) × ℝ × ℝ × ℝ :=
  let x := (r1 - 0.5) * P.area
  let bottomBias := r2 ^ P.bottomDensity
  let y := bottomBias * P.height - 5
  let z := (r3 - 0.5) * P.area
  let baseVelocity := r4 * P.speed + P.speed * 0.5
  let heightFactor := (y + 5) / P.height
  let velocity := baseVelocity * (0.3 + heightFactor * P.velocityGradient)
  let lifetime := r5 * 10
  let bottomScale := 0.5 + r6 * 0.5
  let scale := bottomScale * (0.3 + heightFactor * P.sizeGradient)
  ((x, y, z), velocity, lifetime, scale)

/-- Per-frame step of one ambient particle (lines 201-229): rise by
`velocity * delta`, drift horizontally, and if the new height exceeds the
ceiling reset to a biased-random bottom position and redraw the velocity
scaled by the new height fraction (four fresh `Math.random()` values in
source order).  Returns the new position and velocity. -/
noncomputable def stepAmbient (P : AmbientParams) (t delta : ℝ)
    (pos : ℝ × ℝ × ℝ) (velocity lifetime : ℝ) (r1 r2 r3 r4 : ℝ) :
    (ℝ × ℝ × ℝ) × ℝ :=
  let y1 := pos.2.1 + velocity * delta
  let x1 := pos.1 + Real.sin (t + lifetime) * P.driftIntensity
  let z1 := pos.2.2 + Real.cos (t + lifetime) * P.driftIntensity
  if P.height < y1 then
    let x2 := (r1 - 0.5) * P.area
    let bottomBias := r2 ^ P.bottomDensity
    let y2 := bottomBias * (P.height * 0.3) - 5
    let z2 := (r3 - 0.5) * P.area
    let heightFactor := (y2 + 5) / P.height
    let baseVelocity := r4 * P.speed + P.speed * 0.5
    ((x2, y2, z2), baseVelocity * (0.3 + heightFactor * P.velocityGradient))
  else
    ((x1, y1, z1), velocity)

end TraidarLogo

namespace TraidarLogo

/-! ## Theorems -/

/-! ### Helper lemmas about the builder loops -/

theorem flat3_length (l : List (ℚ × ℚ × ℚ)) : (flat3 l).length = 3 * l.length := by
  induction l with
  | nil => rfl
  | cons t l ih =>
    simp only [flat3, List.foldr_cons, List.length_cons] at ih ⊢
    omega

theorem padTo_length (count : ℕ) (l : List (ℚ × ℚ × ℚ)) :
    (padTo count l).length = count := by
  simp only [padTo, List.length_append, List.length_take, List.length_replicate]
  omega

theorem foldl_length_le_add {α : Type} (step : List PRec × ℕ → α → List PRec × ℕ)
    (hstep : ∀ st a, (step st a).1.length ≤ st.1.length + 1) :
    ∀ (l : List α) (st : List PRec × ℕ),
      (l.foldl step st).1.length ≤ st.1.length + l.length := by
  intro l
  induction l with
  | nil => intro st; simp
  | cons a l ih =>
    intro st
    rw [List.foldl_cons]
    have h1 := ih (step st a)
    have h2 := hstep st a
    simp only [List.length_cons]
    omega

theorem foldl_length_le_count {α : Type} (count : ℕ)
    (step : List PRec × ℕ → α → List PRec × ℕ)
    (hstep : ∀ st a, st.1.length ≤ count → (step st a).1.length ≤ count) :
    ∀ (l : List α) (st : List PRec × ℕ),
      st.1.length ≤ count → (l.foldl step st).1.length ≤ count := by
  intro l
  induction l with
  | nil => intro st h; simpa using h
  | cons a l ih =>
    intro st h
    rw [List.foldl_cons]
    exact ih (step st a) (hstep st a h)

theorem strideLoop_length_le (cfg : BuildCfg) (trig : TrigQ) (bull : BullData)
    (width height : ℕ) (visible : List Px) (rng : ℕ → ℚ) :
    (strideLoop cfg trig bull width height visible rng).1.length ≤ cfg.particleCount := by
  simp only [strideLoop]
  refine le_trans (foldl_length_le_add _ ?_ _ _)
    (by simp only [List.length_nil, List.length_range]; omega)
  intro st a
  dsimp only
  cases h : visible[(⌊(a : ℚ) * ((visible.length : ℚ) / cfg.particleCount)⌋).toNat]? with
  | none => simp
  | some pixel => simp

theorem perPixelLoop_length_le (cfg : BuildCfg) (trig : TrigQ) (bull : BullData)
    (width height : ℕ) (visible : List Px) (rng : ℕ → ℚ) :
    (perPixelLoop cfg trig bull width height visible rng).1.length ≤ cfg.particleCount := by
  simp only [perPixelLoop]
  refine foldl_length_le_count cfg.particleCount _ ?_ _ _ (by simp)
  intro st pixel h
  refine foldl_length_le_count cfg.particleCount _ ?_ _ _ h
  intro st2 u h2
  dsimp only
  split
  case isTrue hlt => simpa using hlt
  case isFalse => exact h2

theorem uniformLoop_length_le (cfg : BuildCfg) (trig : TrigQ) (bull : BullData)
    (width height : ℕ) (data : List RGBA) (rng : ℕ → ℚ) :
    (uniformLoop cfg trig bull width height data rng).1.length ≤ cfg.particleCount := by
  simp only [uniformLoop]
  refine foldl_length_le_count cfg.particleCount _ ?_ _ _ (by simp)
  intro st i h
  dsimp only
  split
  case isTrue hlt =>
    cases hd : data[i]? with
    | none => simpa using h
    | some p =>
      simp only [hd]
      split
      · simpa using hlt
      · exact h
  case isFalse => exact h

theorem mainPass_length_le (cfg : BuildCfg) (trig : TrigQ) (bull : BullData)
    (width height : ℕ) (data : List RGBA) (visible : List Px) (rng : ℕ → ℚ) :
    (mainPass cfg trig bull width height data visible rng).1.length ≤ cfg.particleCount := by
  rw [mainPass]
  split
  · split
    · exact strideLoop_length_le cfg trig bull width height visible rng
    · exact perPixelLoop_length_le cfg trig bull width height visible rng
  · exact uniformLoop_length_le cfg trig bull width height data rng

theorem fallbackLoop_prefix (cfg : BuildCfg) (trig : TrigQ) (bull : BullData)
    (width height : ℕ) (visible : List Px) (rng : ℕ → ℚ) :
    ∀ (fuel : ℕ) (st : List PRec × ℕ), ∃ t,
      (fallbackLoop cfg trig bull width height visible rng fuel st).1 = st.1 ++ t := by
  intro fuel
  induction fuel with
  | zero => intro st; exact ⟨[], by rw [fallbackLoop, List.append_nil]⟩
  | succ n ih =>
    intro st
    rw [fallbackLoop]
    split
    · obtain ⟨t, ht⟩ :=
        ih (st.1 ++ [mkFallbackParticle cfg trig bull width height visible
          st.1.length rng st.2], st.2 + 9)
      exact ⟨[mkFallbackParticle cfg trig bull width height visible
          st.1.length rng st.2] ++ t, by rw [ht, List.append_assoc]⟩
    · exact ⟨[], by rw [List.append_nil]⟩

theorem fallbackLoop_length (cfg : BuildCfg) (trig : TrigQ) (bull : BullData)
    (width height : ℕ) (visible : List Px) (rng : ℕ → ℚ)
    (hvis : 0 < visible.length) :
    ∀ (fuel : ℕ) (st : List PRec × ℕ),
      st.1.length ≤ cfg.particleCount → cfg.particleCount ≤ st.1.length + fuel →
      (fallbackLoop cfg trig bull width height visible rng fuel st).1.length =
        cfg.particleCount := by
  intro fuel
  induction fuel with
  | zero =>
    intro st h1 h2
    rw [fallbackLoop]
    omega
  | succ n ih =>
    intro st h1 h2
    rw [fallbackLoop]
    split
    case isTrue h =>
      refine ih _ ?_ ?_
      · simp only [List.length_append, List.length_cons, List.length_nil]
        omega
      · simp only [List.length_append, List.length_cons, List.length_nil]
        omega
    case isFalse h =>
      rw [Classical.not_and_iff_or_not_not] at h
      rcases h with h | h
      · omega
      · exact absurd hvis h

theorem fallbackLoop_getElem (cfg : BuildCfg) (trig : TrigQ) (bull : BullData)
    (width height : ℕ) (visible : List Px) (rng : ℕ → ℚ)
    (hvis : 0 < visible.length) :
    ∀ (fuel : ℕ) (st : List PRec × ℕ),
      st.1.length ≤ cfg.particleCount → cfg.particleCount ≤ st.1.length + fuel →
      ∀ j, j < cfg.particleCount - st.1.length →
        (fallbackLoop cfg trig bull width height visible rng fuel st).1[st.1.length + j]? =
          some (mkFallbackParticle cfg trig bull width height visible
            (st.1.length + j) rng (st.2 + 9 * j)) := by
  intro fuel
  induction fuel with
  | zero =>
    intro st h1 h2 j hj
    omega
  | succ n ih =>
    intro st h1 h2 j hj
    rw [fallbackLoop]
    split
    case isTrue h =>
      have hlenst : (st.1 ++ [mkFallbackParticle cfg trig bull width height visible
          st.1.length rng st.2]).length = st.1.length + 1 := by
        simp
      cases j with
      | zero =>
        obtain ⟨t, ht⟩ := fallbackLoop_prefix cfg trig bull width height visible rng n
          (st.1 ++ [mkFallbackParticle cfg trig bull width height visible
            st.1.length rng st.2], st.2 + 9)
        rw [ht]
        rw [List.getElem?_append_left
          (by simp only [List.length_append, List.length_cons, List.length_nil]; omega)]
        rw [List.getElem?_append_right (by omega)]
        simp
      | succ j' =>
        have heq := ih (st.1 ++ [mkFallbackParticle cfg trig bull width height visible
            st.1.length rng st.2], st.2 + 9)
          (by simp only [hlenst]; omega) (by simp only [hlenst]; omega)
          j' (by simp only [hlenst]; omega)
        simp only [hlenst] at heq
        have hidx : st.1.length + 1 + j' = st.1.length + (j' + 1) := by omega
        have hrng : st.2 + 9 + 9 * j' = st.2 + 9 * (j' + 1) := by ring
        rw [hidx, hrng] at heq
        exact heq
    case isFalse h =>
      rw [Classical.not_and_iff_or_not_not] at h
      rcases h with h | h
      · omega
      · exact absurd hvis h

theorem fallbackLoop_of_full (cfg : BuildCfg) (trig : TrigQ) (bull : BullData)
    (width height : ℕ) (visible : List Px) (rng : ℕ → ℚ)
    (fuel : ℕ) (st : List PRec × ℕ) (h : ¬st.1.length < cfg.particleCount) :
    fallbackLoop cfg trig bull width height visible rng fuel st = st := by
  cases fuel with
  | zero => rw [fallbackLoop]
  | succ n =>
    rw [fallbackLoop]
    rw [if_neg]
    rintro ⟨hlt, -⟩
    exact h hlt

theorem stride_pixel_lt (total count i : ℕ) (hi : i < count) (hlt : count < total) :
    (⌊(i : ℚ) * ((total : ℚ) / count)⌋).toNat < total := by
  have hcq : (0 : ℚ) < count := by
    have hc : 0 < count := by omega
    exact_mod_cast hc
  have hnonneg : (0 : ℚ) ≤ (i : ℚ) * ((total : ℚ) / count) := by positivity
  have hlt' : (i : ℚ) * ((total : ℚ) / count) < total := by
    rw [mul_div_assoc']
    rw [div_lt_iff hcq]
    have hic : (i : ℚ) < count := by exact_mod_cast hi
    have htq : (0 : ℚ) < total := by
      have : (0 : ℕ) < total := by omega
      exact_mod_cast this
    nlinarith
  have hfl : ⌊(i : ℚ) * ((total : ℚ) / count)⌋ < (total : ℤ) := by
    rw [Int.floor_lt]
    exact_mod_cast hlt'
  have hge : 0 ≤ ⌊(i : ℚ) * ((total : ℚ) / count)⌋ := Int.floor_nonneg.mpr hnonneg
  omega

theorem strideLoop_eq_map (cfg : BuildCfg) (trig : TrigQ) (bull : BullData)
    (width height : ℕ) (visible : List Px) (rng : ℕ → ℚ)
    (hc : 0 < cfg.particleCount) (hlt : cfg.particleCount < visible.length) :
    strideLoop cfg trig bull width height visible rng =
      ((List.range cfg.particleCount).map fun (i : ℕ) =>
        mkStrideParticle cfg trig bull width height
          (visible.getD
            ((⌊(i : ℚ) * ((visible.length : ℚ) / cfg.particleCount)⌋).toNat)
            ⟨0, 0, 0, 0, 0, 0⟩) i rng (7 * i),
       7 * cfg.particleCount) := by
  simp only [strideLoop]
  suffices hgen : ∀ k, k ≤ cfg.particleCount →
      (List.range k).foldl
        (fun st (i : ℕ) =>
          match visible[(⌊(i : ℚ) * ((visible.length : ℚ) / cfg.particleCount)⌋).toNat]? with
          | none => st
          | some pixel =>
              (st.1 ++ [mkStrideParticle cfg trig bull width height pixel st.1.length rng st.2],
               st.2 + 7))
        ([], 0) =
      ((List.range k).map fun (i : ℕ) =>
        mkStrideParticle cfg trig bull width height
          (visible.getD
            ((⌊(i : ℚ) * ((visible.length : ℚ) / cfg.particleCount)⌋).toNat)
            ⟨0, 0, 0, 0, 0, 0⟩) i rng (7 * i),
       7 * k) by
    exact hgen cfg.particleCount (le_refl _)
  intro k
  induction k with
  | zero => intro _; simp
  | succ k ihk =>
    intro hk
    have hk' : k ≤ cfg.particleCount := by omega
    have hkc : k < cfg.particleCount := by omega
    rw [List.range_succ, List.foldl_append, ihk hk', List.map_append]
    have hpix : (⌊(k : ℚ) * ((visible.length : ℚ) / cfg.particleCount)⌋).toNat <
        visible.length := stride_pixel_lt visible.length cfg.particleCount k hkc hlt
    rw [List.foldl_cons, List.foldl_nil]
    rw [List.getElem?_eq_getElem hpix]
    have hgd : visible.getD
        ((⌊(k : ℚ) * ((visible.length : ℚ) / cfg.particleCount)⌋).toNat)
        ⟨0, 0, 0, 0, 0, 0⟩ =
        visible[(⌊(k : ℚ) * ((visible.length : ℚ) / cfg.particleCount)⌋).toNat] := by
      rw [List.getD_eq_getElem?_getD, List.getElem?_eq_getElem hpix, Option.getD_some]
    simp only [List.length_map, List.length_range, List.map_cons, List.map_nil, hgd]
    refine Prod.ext ?_ ?_
    · rfl
    · dsimp only
      omega

/-- C1: for every sequence progress `p ∈ [0,1]`, the three-phase blend
schedule produces sphere, bull and logo weights that sum exactly to `1`
(hence in particular within floating tolerance `1e-6`). -/
theorem morph_weights_sum_one (p : ℚ) (h0 : 0 ≤ p) (h1 : p ≤ 1) :
    (morphAmounts p).1 + (morphAmounts p).2.1 + (morphAmounts p).2.2 = 1 ∧
    |(morphAmounts p).1 + (morphAmounts p).2.1 + (morphAmounts p).2.2 - 1|
      ≤ 1 / 1000000 := by
  have hsum : (morphAmounts p).1 + (morphAmounts p).2.1 + (morphAmounts p).2.2 = 1 := by
    unfold morphAmounts
    split
    · push_cast
      ring
    · split
      · norm_num
      · push_cast
        ring
  refine ⟨hsum, ?_⟩
  rw [hsum]
  norm_num

/-- Witness for `morph_weights_sum_one` at the concrete progress `1/2`. -/
theorem morph_weights_sum_one_witness :
    (0 : ℚ) ≤ 1/2 ∧
    (morphAmounts (1/2)).1 + (morphAmounts (1/2)).2.1 + (morphAmounts (1/2)).2.2 = 1 :=
  ⟨by norm_num, (morph_weights_sum_one (1/2) (by norm_num) (by norm_num)).1⟩

/-- C2: with zero explosion force, zero wave amplitude, zero pointer
interaction strength and the blend weights at 100 percent logo, the
per-frame update leaves every particle exactly at its logo base position. -/
theorem frame_pure_logo (P : FrameParams) (k : ℕ) (orig sphere bull : ℝ × ℝ × ℝ)
    (h1 : P.explosionForce = 0) (h2 : P.waveAmplitude = 0)
    (h3 : P.mouseInteraction = 0) (h4 : P.sphereAmount = 0)
    (h5 : P.bullAmount = 0) (h6 : P.logoAmount = 1) :
    computeParticle P k orig sphere bull = orig := by
  obtain ⟨ox, oy, oz⟩ := orig
  cases hm : P.enableMorphing <;>
    simp [computeParticle, mouseForce, hm, h1, h2, h3, h4, h5, h6]

/-- Witness configuration for `frame_pure_logo`: morphing on, all forces
zero, weights 100 percent logo. -/
def framePureLogoParams : FrameParams :=
  { enableMorphing := true
    sphereAmount := 0
    bullAmount := 0
    logoAmount := 1
    explosionForce := 0
    animationSpeed := 1
    waveAmplitude := 0
    mouseInteraction := 0
    mouseRadius := 1
    mouseX := 5
    mouseY := 5
    time := 2 }

/-- Witness for `frame_pure_logo` at a concrete particle. -/
theorem frame_pure_logo_witness :
    framePureLogoParams.explosionForce = 0 ∧
    computeParticle framePureLogoParams 3 (1, 2, 3) (4, 5, 6) (7, 8, 9) = (1, 2, 3) :=
  ⟨rfl, frame_pure_logo framePureLogoParams 3 (1, 2, 3) (4, 5, 6) (7, 8, 9)
    rfl rfl rfl rfl rfl rfl⟩

/-- C8: running the per-frame update a second time with identical inputs
(time, weights, forces, pointer position) and unchanged base-position arrays
reproduces the same output position array: the computation never reads the
previous frame's computed positions (they only bound the loop). -/
theorem frame_update_idempotent (P : FrameParams)
    (orig sphere bull prev : List (ℝ × ℝ × ℝ)) :
    frameUpdate P orig sphere bull (frameUpdate P orig sphere bull prev) =
      frameUpdate P orig sphere bull prev := by
  by_cases h : prev.length = 0
  · have hinner : frameUpdate P orig sphere bull prev = prev := by
      rw [frameUpdate, if_pos h]
    rw [hinner]
    exact hinner
  · have hout : frameUpdate P orig sphere bull prev =
        (List.range prev.length).map fun k =>
          if k < orig.length then
            computeParticle P k (orig.getD k (0, 0, 0)) (sphere.getD k (0, 0, 0))
              (if k < bull.length then bull.getD k (0, 0, 0) else orig.getD k (0, 0, 0))
          else prev.getD k (0, 0, 0) := by
      rw [frameUpdate, if_neg h]
    have hlen : (frameUpdate P orig sphere bull prev).length = prev.length := by
      rw [hout, List.length_map, List.length_range]
    have hne : ¬(frameUpdate P orig sphere bull prev).length = 0 := by
      rw [hlen]; exact h
    conv_lhs => rw [frameUpdate, if_neg hne]
    rw [hlen]
    conv_rhs => rw [hout]
    apply List.map_congr_left
    intro k hk
    rw [List.mem_range] at hk
    by_cases hko : k < orig.length
    · simp only [hko, if_pos]
    · simp only [hko, if_neg, if_false]
      rw [List.getD_eq_getElem?_getD, hout, List.getElem?_map,
        List.getElem?_range hk]
      simp [hko]

/-- C3: with `d` the distance from the pointer world position to the
particle's displaced XY position, the pointer force is
`mouseStrength * (1 - d/mouseRadius)^2` along the normalized delta when
`0 < d < mouseRadius`, zero when `d ≥ mouseRadius`, and zero by the explicit
zero-distance guard when the pointer coincides with the particle — never a
division by zero. -/
theorem pointer_force_cases (mi mr mx my px py : ℝ) (hmi : 0 ≤ mi) :
    ((0 < Real.sqrt ((px - mx) * (px - mx) + (py - my) * (py - my)) ∧
        Real.sqrt ((px - mx) * (px - mx) + (py - my) * (py - my)) < mr) →
      mouseForce mi mr mx my px py =
        ((px - mx) / Real.sqrt ((px - mx) * (px - mx) + (py - my) * (py - my)) *
            (mi * (1 - Real.sqrt ((px - mx) * (px - mx) + (py - my) * (py - my)) / mr) ^ 2),
         (py - my) / Real.sqrt ((px - mx) * (px - mx) + (py - my) * (py - my)) *
            (mi * (1 - Real.sqrt ((px - mx) * (px - mx) + (py - my) * (py - my)) / mr) ^ 2))) ∧
    (mr ≤ Real.sqrt ((px - mx) * (px - mx) + (py - my) * (py - my)) →
      mouseForce mi mr mx my px py = (0, 0)) ∧
    ((px = mx ∧ py = my) → mouseForce mi mr mx my px py = (0, 0)) := by
  refine ⟨?_, ?_, ?_⟩
  · rintro ⟨hd0, hdr⟩
    rcases eq_or_lt_of_le hmi with hmi0 | hmi0
    · rw [mouseForce, if_neg (by rw [← hmi0]; exact lt_irrefl 0), ← hmi0]
      simp
    · rw [mouseForce, if_pos hmi0, if_pos ⟨hdr, hd0⟩]
      refine Prod.ext ?_ ?_ <;> simp only [] <;> ring
  · intro hged
    rw [mouseForce]
    split
    · rw [if_neg]
      rintro ⟨hlt, -⟩
      exact absurd hged (not_le.mpr hlt)
    · rfl
  · rintro ⟨hx, hy⟩
    subst hx
    subst hy
    have hzero : Real.sqrt ((px - px) * (px - px) + (py - py) * (py - py)) = 0 := by
      simp
    rw [mouseForce]
    split
    · rw [if_neg]
      rintro ⟨-, hpos⟩
      rw [hzero] at hpos
      exact lt_irrefl 0 hpos
    · rfl

/-- Witness for `pointer_force_cases`: pointer at the origin, particle at
`(1, 0)`, radius `2`, strength `1`; the distance is `1` and the force is
`(1/4, 0)`. -/
theorem pointer_force_cases_witness :
    (0 : ℝ) ≤ 1 ∧ mouseForce 1 2 0 0 1 0 = (1/4, 0) := by
  have harg : ((1 : ℝ) - 0) * ((1 : ℝ) - 0) + ((0 : ℝ) - 0) * ((0 : ℝ) - 0) = 1 := by
    norm_num
  have hd : Real.sqrt (((1 : ℝ) - 0) * ((1 : ℝ) - 0) + ((0 : ℝ) - 0) * ((0 : ℝ) - 0)) = 1 := by
    rw [harg]
    exact Real.sqrt_one
  refine ⟨by norm_num, ?_⟩
  have h := (pointer_force_cases 1 2 0 0 1 0 (by norm_num)).1
    (by rw [hd]; constructor <;> norm_num)
  rw [h, hd]
  norm_num

/-- C9: every generated sphere target has Euclidean norm exactly
`0.8 * spread` (hence the mean of the norms equals the radius), and its
`z`-coordinate divided by the radius is `1 - 2u`, an affine image of the
uniform draw `u` spanning `(-1, 1]`. -/
theorem sphere_target_uniform (spread u v : ℝ)
    (hu0 : 0 ≤ u) (hu1 : u < 1) (hs : 0 < spread) :
    norm3 (sphereTarget spread u v) = spread * 0.8 ∧
    (sphereTarget spread u v).2.2 / (spread * 0.8) = 1 - 2 * u ∧
    -1 < 1 - 2 * u ∧ 1 - 2 * u ≤ 1 := by
  have hr : (0 : ℝ) < spread * 0.8 := by nlinarith
  have hcos : Real.cos (Real.arccos (1 - 2 * u)) = 1 - 2 * u :=
    Real.cos_arccos (by nlinarith) (by nlinarith)
  have hθ : Real.cos (v * Real.pi * 2) ^ 2 + Real.sin (v * Real.pi * 2) ^ 2 = 1 :=
    Real.cos_sq_add_sin_sq (v * Real.pi * 2)
  have hφ : Real.sin (Real.arccos (1 - 2 * u)) ^ 2 +
      Real.cos (Real.arccos (1 - 2 * u)) ^ 2 = 1 :=
    Real.sin_sq_add_cos_sq (Real.arccos (1 - 2 * u))
  refine ⟨?_, ?_, by nlinarith, by nlinarith⟩
  · have key : (sphereTarget spread u v).1 * (sphereTarget spread u v).1 +
        (sphereTarget spread u v).2.1 * (sphereTarget spread u v).2.1 +
        (sphereTarget spread u v).2.2 * (sphereTarget spread u v).2.2 =
        (spread * 0.8) ^ 2 := by
      simp only [sphereTarget]
      linear_combination
        ((spread * 0.8) ^ 2 * Real.sin (Real.arccos (1 - 2 * u)) ^ 2) * hθ +
        (spread * 0.8) ^ 2 * hφ
    rw [norm3, key]
    exact Real.sqrt_sq hr.le
  · have hz : (sphereTarget spread u v).2.2 = spread * 0.8 * (1 - 2 * u) := by
      simp only [sphereTarget]
      rw [hcos]
    rw [hz, mul_div_cancel_left₀ _ hr.ne']

/-- Witness for `sphere_target_uniform` at `spread = 1`, `u = 1/2`, `v = 3`. -/
theorem sphere_target_uniform_witness :
    (0 : ℝ) ≤ 1/2 ∧ norm3 (sphereTarget 1 (1/2) 3) = 1 * 0.8 :=
  ⟨by norm_num,
    (sphere_target_uniform 1 (1/2) 3 (by norm_num) (by norm_num) (by norm_num)).1⟩

/-- C7: after every update tick of the ambient field the particle satisfies
`position.y ≤ height` (with a positive height ceiling and a unit-interval
random draw): a particle pushed above the ceiling is reset in the same tick
to the biased-random bottom position `pow(rand, bottomDensity) * (height *
0.3) - 5`. -/
theorem ambient_height_ceiling (P : AmbientParams) (t delta : ℝ)
    (pos : ℝ × ℝ × ℝ) (velocity lifetime r1 r2 r3 r4 : ℝ)
    (hh : 0 < P.height) (h2a : 0 ≤ r2) (h2b : r2 ≤ 1)
    (hbd : 0 ≤ P.bottomDensity) :
    ((stepAmbient P t delta pos velocity lifetime r1 r2 r3 r4).1).2.1 ≤ P.height ∧
    (P.height < pos.2.1 + velocity * delta →
      ((stepAmbient P t delta pos velocity lifetime r1 r2 r3 r4).1).2.1 =
        r2 ^ P.bottomDensity * (P.height * 0.3) - 5) := by
  have hbias0 : 0 ≤ r2 ^ P.bottomDensity := Real.rpow_nonneg h2a _
  have hbias1 : r2 ^ P.bottomDensity ≤ 1 := Real.rpow_le_one h2a h2b hbd
  simp only [stepAmbient]
  split
  case isTrue h =>
    refine ⟨?_, fun _ => rfl⟩
    dsimp only
    nlinarith
  case isFalse h =>
    refine ⟨?_, fun hc => absurd hc h⟩
    dsimp only
    exact not_lt.mp h

/-- Witness for `ambient_height_ceiling` at a concrete particle that the
vertical step pushes above the ceiling. -/
theorem ambient_height_ceiling_witness :
    (0 : ℝ) < 15 ∧
    ((stepAmbient ⟨20, 15, 1/2, 3, 7/10, 7/10, 1/500⟩ 2 1 (0, 14, 0) 2 1
        (1/2) (1/2) (1/2) (1/2)).1).2.1 ≤ 15 :=
  ⟨by norm_num,
    (ambient_height_ceiling ⟨20, 15, 1/2, 3, 7/10, 7/10, 1/500⟩ 2 1 (0, 14, 0) 2 1
      (1/2) (1/2) (1/2) (1/2) (by norm_num) (by norm_num) (by norm_num)
      (by norm_num)).1⟩

/-- C10: with positive speed, a nonnegative velocity gradient and
unit-interval random draws, the vertical velocity is strictly positive both
at field construction and after every recycling event, so a particle rises
strictly between recycles whenever the frame delta is positive. -/
theorem ambient_velocity_positive (P : AmbientParams)
    (r1 r2 r3 r4 r5 r6 t delta : ℝ) (pos : ℝ × ℝ × ℝ)
    (velocity lifetime q1 q2 q3 q4 : ℝ)
    (hs : 0 < P.speed) (hvg : 0 ≤ P.velocityGradient) (hh : 0 < P.height)
    (h2 : 0 ≤ r2) (h4 : 0 ≤ r4) (hq2 : 0 ≤ q2) (hq4 : 0 ≤ q4) :
    0 < (initAmbient P r1 r2 r3 r4 r5 r6).2.1 ∧
    (P.height < pos.2.1 + velocity * delta →
      0 < (stepAmbient P t delta pos velocity lifetime q1 q2 q3 q4).2) ∧
    (0 < velocity → 0 < delta → pos.2.1 + velocity * delta ≤ P.height →
      pos.2.1 < ((stepAmbient P t delta pos velocity lifetime q1 q2 q3 q4).1).2.1) := by
  have hb : 0 ≤ r2 ^ P.bottomDensity := Real.rpow_nonneg h2 _
  have hqb : 0 ≤ q2 ^ P.bottomDensity := Real.rpow_nonneg hq2 _
  refine ⟨?_, ?_, ?_⟩
  · dsimp only [initAmbient]
    have hf : (r2 ^ P.bottomDensity * P.height - 5 + 5) / P.height =
        r2 ^ P.bottomDensity := by
      field_simp
    rw [hf]
    have h1 : (0 : ℝ) < r4 * P.speed + P.speed * 0.5 := by nlinarith
    have h2' : (0 : ℝ) < 0.3 + r2 ^ P.bottomDensity * P.velocityGradient := by
      nlinarith [mul_nonneg hb hvg]
    exact mul_pos h1 h2'
  · intro hrecycle
    simp only [stepAmbient]
    rw [if_pos hrecycle]
    dsimp only
    have hf : (q2 ^ P.bottomDensity * (P.height * 0.3) - 5 + 5) / P.height =
        q2 ^ P.bottomDensity * 0.3 := by
      field_simp
      ring
    rw [hf]
    have h1 : (0 : ℝ) < q4 * P.speed + P.speed * 0.5 := by nlinarith
    have h2' : (0 : ℝ) < 0.3 + q2 ^ P.bottomDensity * 0.3 * P.velocityGradient := by
      nlinarith [mul_nonneg (mul_nonneg hqb (by norm_num : (0:ℝ) ≤ 0.3)) hvg]
    exact mul_pos h1 h2'
  · intro hv hd hstay
    simp only [stepAmbient]
    rw [if_neg (not_lt.mpr hstay)]
    dsimp only
    nlinarith

/-- C4: for every input — any visible pixel list, longer than, shorter than,
equal to `particleCount`, or empty — the builder's output position and color
arrays have length exactly `3 * particleCount`; when visible pixels exist,
every particle slot is filled and each slot left over after the main
sampling pass holds a jittered round-robin copy of pixel
`index % visiblePixels.length`. -/
theorem builder_output_shape (cfg : BuildCfg) (trig : TrigQ) (bull : BullData)
    (width height : ℕ) (data : List RGBA) (visible : List Px) (rng : ℕ → ℚ) :
    (flat3 (buildFromVisible cfg trig bull width height data visible rng).positions).length
        = 3 * cfg.particleCount ∧
    (flat3 (buildFromVisible cfg trig bull width height data visible rng).colors).length
        = 3 * cfg.particleCount ∧
    (0 < visible.length →
      (builtParticles cfg trig bull width height data visible rng).length =
        cfg.particleCount ∧
      ∀ j, j < cfg.particleCount -
          (mainPass cfg trig bull width height data visible rng).1.length →
        (builtParticles cfg trig bull width height data visible rng)[
            (mainPass cfg trig bull width height data visible rng).1.length + j]? =
          some (mkFallbackParticle cfg trig bull width height visible
            ((mainPass cfg trig bull width height data visible rng).1.length + j) rng
            ((mainPass cfg trig bull width height data visible rng).2 + 9 * j))) := by
  refine ⟨?_, ?_, ?_⟩
  · simp only [buildFromVisible]
    rw [flat3_length, padTo_length]
  · simp only [buildFromVisible]
    rw [flat3_length, padTo_length]
  · intro hvis
    have hm := mainPass_length_le cfg trig bull width height data visible rng
    constructor
    · exact fallbackLoop_length cfg trig bull width height visible rng hvis
        cfg.particleCount (mainPass cfg trig bull width height data visible rng)
        hm (by omega)
    · intro j hj
      exact fallbackLoop_getElem cfg trig bull width height visible rng hvis
        cfg.particleCount (mainPass cfg trig bull width height data visible rng)
        hm (by omega) j hj

/-- Witness for `builder_output_shape`: two particles requested from an
empty image with one visible pixel; the main pass produces nothing and the
fallback fills both slots round-robin. -/
theorem builder_output_shape_witness :
    (flat3 (buildFromVisible cfgFallback2 trigZero bullOne 2 2 [] visibleOne
      rngHalf).positions).length = 3 * cfgFallback2.particleCount ∧
    (builtParticles cfgFallback2 trigZero bullOne 2 2 [] visibleOne rngHalf).length =
      cfgFallback2.particleCount ∧
    (builtParticles cfgFallback2 trigZero bullOne 2 2 [] visibleOne rngHalf)[
        (mainPass cfgFallback2 trigZero bullOne 2 2 [] visibleOne rngHalf).1.length + 0]? =
      some (mkFallbackParticle cfgFallback2 trigZero bullOne 2 2 visibleOne
        ((mainPass cfgFallback2 trigZero bullOne 2 2 [] visibleOne rngHalf).1.length + 0)
        rngHalf
        ((mainPass cfgFallback2 trigZero bullOne 2 2 [] visibleOne rngHalf).2 + 9 * 0)) := by
  have h := builder_output_shape cfgFallback2 trigZero bullOne 2 2 [] visibleOne rngHalf
  exact ⟨h.1, (h.2.2 (by decide)).1, (h.2.2 (by decide)).2 0 (by decide)⟩

/-- C5 (amended): in adaptive density mode, whenever there are strictly more
visible pixels than particles, the builder selects exactly `particleCount`
pixels by an even stride over the shuffled pixel list, particle `i` coming
jitter-free from pixel `floor(i * step)` with
`step = totalPixels / particleCount`. -/
theorem adaptive_stride_selection (cfg : BuildCfg) (trig : TrigQ) (bull : BullData)
    (width height : ℕ) (data : List RGBA) (visible : List Px) (rng : ℕ → ℚ)
    (hmode : cfg.densityAdaptive = true) (hc : 0 < cfg.particleCount)
    (hlt : cfg.particleCount < visible.length) :
    (builtParticles cfg trig bull width height data visible rng).length =
      cfg.particleCount ∧
    ∀ i, i < cfg.particleCount →
      (builtParticles cfg trig bull width height data visible rng)[i]? =
        some (mkStrideParticle cfg trig bull width height
          (visible.getD
            ((⌊(i : ℚ) * ((visible.length : ℚ) / cfg.particleCount)⌋).toNat)
            ⟨0, 0, 0, 0, 0, 0⟩) i rng (7 * i)) := by
  have hvis : 0 < visible.length := by omega
  have hcond : (cfg.particleCount : ℚ) / visible.length < 1 := by
    rw [div_lt_one (by exact_mod_cast hvis)]
    exact_mod_cast hlt
  have hmain : mainPass cfg trig bull width height data visible rng =
      ((List.range cfg.particleCount).map fun (i : ℕ) =>
        mkStrideParticle cfg trig bull width height
          (visible.getD
            ((⌊(i : ℚ) * ((visible.length : ℚ) / cfg.particleCount)⌋).toNat)
            ⟨0, 0, 0, 0, 0, 0⟩) i rng (7 * i),
       7 * cfg.particleCount) := by
    rw [mainPass, if_pos ⟨hmode, hvis⟩, if_pos hcond]
    exact strideLoop_eq_map cfg trig bull width height visible rng hc hlt
  have hlen : (mainPass cfg trig bull width height data visible rng).1.length =
      cfg.particleCount := by
    rw [hmain]
    simp
  have hbuilt : builtParticles cfg trig bull width height data visible rng =
      (mainPass cfg trig bull width height data visible rng).1 := by
    rw [builtParticles, fallbackLoop_of_full cfg trig bull width height visible rng
      cfg.particleCount _ (by rw [hlen]; exact lt_irrefl _)]
  constructor
  · rw [hbuilt, hlen]
  · intro i hi
    rw [hbuilt, hmain]
    dsimp only
    rw [List.getElem?_map, List.getElem?_range hi, Option.map_some']

/-- Witness for `adaptive_stride_selection`: one particle from two visible
pixels. -/
theorem adaptive_stride_selection_witness :
    (builtParticles cfgAdaptive1 trigZero bullOne 2 2 [] visibleTwo
      rngThreeQuarters).length = cfgAdaptive1.particleCount ∧
    (builtParticles cfgAdaptive1 trigZero bullOne 2 2 [] visibleTwo
      rngThreeQuarters)[0]? =
      some (mkStrideParticle cfgAdaptive1 trigZero bullOne 2 2
        (visibleTwo.getD
          ((⌊((0 : ℕ) : ℚ) * ((visibleTwo.length : ℚ) / cfgAdaptive1.particleCount)⌋).toNat)
          ⟨0, 0, 0, 0, 0, 0⟩) 0 rngThreeQuarters (7 * 0)) := by
  have h := adaptive_stride_selection cfgAdaptive1 trigZero bullOne 2 2 []
    visibleTwo rngThreeQuarters rfl (by decide) (by decide)
  exact ⟨h.1, h.2 0 (by decide)⟩

/-- Counterexample to C5 as stated: with `visiblePixels.length` exactly
equal to `particleCount` (one pixel, one particle) the builder takes the
jittered one-particle-per-pixel path, so the produced x position
`1/4000` (the jitter offset) differs from the jitter-free stride mapping of
the selected pixel, which is `0`. -/
theorem adaptive_equal_count_jittered :
    ((builtParticles cfgAdaptive1 trigZero bullOne 2 2 [] visibleOne
        rngThreeQuarters).map (fun p => p.pos.1)) = [1/4000] ∧
    ((1 : ℚ)/4000) ≠
      (((visibleOne.getD 0 ⟨0, 0, 0, 0, 0, 0⟩).x : ℚ) / 2 - 0.5) *
        cfgAdaptive1.spread := by
  have hmain : mainPass cfgAdaptive1 trigZero bullOne 2 2 [] visibleOne rngThreeQuarters =
      ([mkJitterParticle cfgAdaptive1 trigZero bullOne 2 2 ⟨1, 1, 9, 9, 9, 255⟩ 0
          rngThreeQuarters 0], 9) := by
    rw [mainPass, if_pos ⟨rfl, by decide⟩,
      if_neg (by norm_num [cfgAdaptive1, visibleOne])]
    have hppp : (⌈(cfgAdaptive1.particleCount : ℚ) / ((visibleOne.length : ℕ) : ℚ)⌉).toNat = 1 := by
      norm_num [cfgAdaptive1, visibleOne]
    have hr1 : List.range 1 = [0] := by decide
    simp only [perPixelLoop]
    rw [hppp, hr1]
    simp only [visibleOne, List.foldl_cons, List.foldl_nil]
    rw [if_pos (by decide : (([] : List PRec), (0 : ℕ)).1.length < cfgAdaptive1.particleCount)]
    simp only [List.nil_append, List.length_nil]
  have hbuilt : builtParticles cfgAdaptive1 trigZero bullOne 2 2 [] visibleOne
      rngThreeQuarters =
      [mkJitterParticle cfgAdaptive1 trigZero bullOne 2 2 ⟨1, 1, 9, 9, 9, 255⟩ 0
        rngThreeQuarters 0] := by
    rw [builtParticles, hmain, fallbackLoop_of_full cfgAdaptive1 trigZero bullOne 2 2
      visibleOne rngThreeQuarters cfgAdaptive1.particleCount _ (by decide)]
  constructor
  · rw [hbuilt]
    simp only [List.map_cons, List.map_nil]
    norm_num [mkJitterParticle, cfgAdaptive1, rngThreeQuarters]
  · norm_num [visibleOne, cfgAdaptive1]

set_option maxRecDepth 2000 in
/-- Counterexample to C6 as stated: the fully opaque 2x2 image with four
distinct corner colors, `alphaThreshold = 0`, `particleCount = 4`, uniform
mode and `spread = 4` yields first particle position `(-2, 2)`, which is not
one of the four quadrant centers `(±0.25*spread, ±0.25*spread) = (±1, ±1)`. -/
theorem uniform_2x2_not_quadrant_centers :
    ((particleData cfgUniform4 trigZero bullOne 2 2 image2x2 id rngHalf).positions.map
      (fun p => (p.1, p.2.1))) = [(-2, 2), (0, 2), (-2, 0), (0, 0)] ∧
    ((-2 : ℚ), (2 : ℚ)) ∉
      ([((1 : ℚ), (1 : ℚ)), (1, -1), (-1, 1), (-1, -1)] : List (ℚ × ℚ)) := by
  with_unfolding_all decide

set_option maxRecDepth 2000 in
/-- C6 (amended): the fully opaque 2x2 image with four distinct RGBA corner
pixels, `alphaThreshold = 0`, `particleCount = 4` and uniform mode yields
exactly 4 particles whose color multiset equals the four corner colors
divided by 255, and whose `(x, y)` positions are the raster-corner mapping
`((x/width - 0.5) * spread, -(y/height - 0.5) * spread)` of the four pixels
— the values `(0 or -0.5*spread, 0 or +0.5*spread)` — not the quadrant
centers. -/
theorem uniform_2x2_colors_and_positions :
    (((particleData cfgUniform4 trigZero bullOne 2 2 image2x2 id rngHalf).colors :
        List (ℚ × ℚ × ℚ)) : Multiset (ℚ × ℚ × ℚ)) =
      ({(1, 0, 0), (0, 1, 0), (0, 0, 1), (1, 1, 0)} : Multiset (ℚ × ℚ × ℚ)) ∧
    ((particleData cfgUniform4 trigZero bullOne 2 2 image2x2 id rngHalf).positions.map
      (fun p => (p.1, p.2.1))) = [(-2, 2), (0, 2), (-2, 0), (0, 0)] := by
  with_unfolding_all decide

/-- Witness for `ambient_velocity_positive` at a concrete configuration. -/
theorem ambient_velocity_positive_witness :
    (0 : ℝ) < 1/2 ∧
    0 < (initAmbient ⟨20, 15, 1/2, 3, 7/10, 7/10, 1/500⟩ (1/2) (1/2) (1/2) (1/2)
          (1/2) (1/2)).2.1 :=
  ⟨by norm_num,
    (ambient_velocity_positive ⟨20, 15, 1/2, 3, 7/10, 7/10, 1/500⟩
      (1/2) (1/2) (1/2) (1/2) (1/2) (1/2) 2 1 (0, 14, 0) 2 1 (1/2) (1/2) (1/2) (1/2)
      (by norm_num) (by norm_num) (by norm_num) (by norm_num) (by norm_num)
      (by norm_num) (by norm_num)).1⟩

end TraidarLogo
